import Mathlib

/-!
Verification development for the RecoMuon/MuonIdentification package.

The package has four source files:
* `interface/DTTimingExtractor.h` — declares `DTTimingExtractor` with its
  `TimeMeasurement` record, the `fillTiming` entry point, the private
  side-separated fit `fitT0`, and the configuration members
  (`theHitsMin_`, `thePruneCut_`, `useSegmentT0_`, `doWireCorr_`,
  `dropTheta_`, `requireBothProjections_`, `theDTTimeOffset_`,
  `theDTError_`).  The implementation (`.cc`) of `fillTiming`/`fitT0` is
  not part of the repository snapshot, so the fit engine, hit classifier,
  projection selector and pruning controller below are modelled from the
  specification's algorithm description (each such definition is marked
  `Modelled from the spec:`).
* `plugins/CaloMuonMerger.cc` — embedded below as `CaloMuonMerger.produce`.
* `plugins/MuonsFromRefitTracksProducer.cc` — embedded below as
  `cloneAndSwitchTrack`.
* `interface/IdGlobalFunctions.h` — declarations only, not needed by the
  claims.

C++ `double`/`float` values are embedded as exact rationals `ℚ`.  Standard
errors appear only squared (as variances), so that square roots are never
needed: every comparison between non-negative errors is equivalent to the
comparison of their squares.
-/

/-- Embedding of `DTTimingExtractor::TimeMeasurement`
(interface/DTTimingExtractor.h lines 67–77).  `driftCell : DetId` is kept as
a raw identifier. -/
structure TimeMeasurement where
  isLeft : Bool
  isPhi : Bool
  posInLayer : ℚ
  distIP : ℚ
  timeCorr : ℚ
  station : ℤ
  driftCell : ℕ
deriving DecidableEq

/-- Embedding of the configuration members of `DTTimingExtractor`
(interface/DTTimingExtractor.h lines 85–92), set once at construction and
immutable afterwards. -/
structure Config where
  theHitsMin_ : ℕ
  thePruneCut_ : ℚ
  useSegmentT0_ : Bool
  doWireCorr_ : Bool
  dropTheta_ : Bool
  requireBothProjections_ : Bool
  theDTTimeOffset_ : ℚ
  theDTError_ : ℚ
deriving DecidableEq

/-- Modelled from the spec: the RawHit record returned by the external
geometry/segment lookup (spec §3, §6).  `pathLen` is the signed path-length
coordinate from the interaction region to the hit along the track direction;
`segmentT0` is the segment-supplied time origin; `wirePropDelay` is the
signal-propagation delay along the wire (proportional to the propagation
distance, computed by the external geometry service); `geomOk` records
whether geometry resolution succeeded for this hit. -/
structure RawHit where
  detId : ℕ
  station : ℤ
  isPhi : Bool
  isLeft : Bool
  posInLayer : ℚ
  pathLen : ℚ
  rawTime : ℚ
  segmentT0 : ℚ
  wirePropDelay : ℚ
  geomOk : Bool
deriving DecidableEq

/-- Modelled from the spec: the segment-level time-origin subtraction of the
Hit Classifier (spec §4.1, `useSegmentT0`); the implementation of
`DTTimingExtractor::fillTiming` that performs it is not in the snapshot. -/
def applySegmentT0 (h : RawHit) (t : ℚ) : ℚ :=
  t - h.segmentT0

/-- Modelled from the spec: the wire propagation-delay correction of the Hit
Classifier (spec §4.1, `doWireCorr`); the implementation is not in the
snapshot. -/
def applyWireCorr (h : RawHit) (t : ℚ) : ℚ :=
  t - h.wirePropDelay

/-- Modelled from the spec: the Hit Classifier (spec §4.1) — the part of
`DTTimingExtractor::fillTiming` that turns one raw hit into one
`TimeMeasurement`, whose implementation is not in the snapshot.  It is a
pure transformation; a hit whose geometry could not be resolved is skipped
(`none`).  `distIP` is the (non-negative) path length, i.e. the absolute
value of the signed path-length coordinate.  The corrected time subtracts
the segment time origin (if `useSegmentT0_`), the fixed detector offset
`theDTTimeOffset_`, and the wire propagation delay (if `doWireCorr_`). -/
def classifyHit (cfg : Config) (h : RawHit) : Option TimeMeasurement :=
  if h.geomOk then
    some { isLeft := h.isLeft
           isPhi := h.isPhi
           posInLayer := h.posInLayer
           distIP := |h.pathLen|
           timeCorr := h.rawTime
                       - (if cfg.useSegmentT0_ then h.segmentT0 else 0)
                       - cfg.theDTTimeOffset_
                       - (if cfg.doWireCorr_ then h.wirePropDelay else 0)
           station := h.station
           driftCell := h.detId }
  else none

/-- Modelled from the spec: step 1 of the Projection Selector (spec §4.2) —
if `dropTheta_` is set, discard all `isPhi = false` measurements
unconditionally. -/
def dropThetaFilter (cfg : Config) (ms : List TimeMeasurement) :
    List TimeMeasurement :=
  if cfg.dropTheta_ then ms.filter (fun m => m.isPhi) else ms

/-- The measurements of one station. -/
def stationHits (ms : List TimeMeasurement) (st : ℤ) : List TimeMeasurement :=
  ms.filter (fun m => m.station = st)

/-- Modelled from the spec: the per-station inclusion test of the Projection
Selector (spec §4.2 steps 2 and 3), evaluated on the measurements that
survived the `dropTheta_` stage: if `requireBothProjections_` is set the
station must retain at least one phi and one theta measurement, and it must
retain at least `theHitsMin_` measurements summed across projections. -/
def stationOK (cfg : Config) (ms : List TimeMeasurement) (st : ℤ) : Bool :=
  (!cfg.requireBothProjections_
    || ((stationHits ms st).any (fun m => m.isPhi)
        && (stationHits ms st).any (fun m => !m.isPhi)))
  && cfg.theHitsMin_ ≤ (stationHits ms st).length

/-- Modelled from the spec: the Projection Selector (spec §4.2), whose
implementation inside `DTTimingExtractor::fillTiming` is not in the
snapshot.  Policies apply in order: first the `dropTheta_` filter, then the
per-station tests (both-projections requirement and `theHitsMin_`
threshold) evaluated on the already-filtered list.  The output is
order-preserving. -/
def projectionSelect (cfg : Config) (ms : List TimeMeasurement) :
    List TimeMeasurement :=
  let ms1 := dropThetaFilter cfg ms
  ms1.filter (fun m => stationOK cfg ms1 m.station)

/-- One side's (left or right) fit: intercept `a`, slope `b`, and the
side's variance estimate `v` (squared standard error). -/
structure SideFit where
  a : ℚ
  b : ℚ
  v : ℚ
deriving DecidableEq

/-- Modelled from the spec: the per-side least-squares fit of
`DTTimingExtractor::fitT0` (spec §4.3 steps 1–2 and the degenerate-geometry
guard), whose implementation is not in the snapshot.  `err0` is the squared
nominal per-hit timing resolution used as the degraded confidence weight of
a single-point side.
* no points: the side contributes nothing (`none`);
* one point: intercept-only estimate at that point, variance `err0`;
* ≥ 2 points with all x equal (`delta = 0`): the slope is undefined; the
  side falls back to the mean of y with variance `RSS₀/(n−1)`;
* otherwise the ordinary least-squares line, with variance `RSS/(n−2)`
  (for `n = 2` the two-point fit is exact, so `RSS = 0`). -/
def sideFit (err0 : ℚ) (xs ys : List ℚ) : Option SideFit :=
  if xs.length = 0 then none
  else if xs.length = 1 then some ⟨ys.headD 0, 0, err0⟩
  else
    let n : ℚ := xs.length
    let sx := xs.sum
    let sy := ys.sum
    let sxx := (xs.map (fun x => x * x)).sum
    let sxy := ((xs.zip ys).map (fun p => p.1 * p.2)).sum
    let delta := n * sxx - sx * sx
    if delta = 0 then
      let a := sy / n
      let rss := (ys.map (fun y => (y - a) ^ 2)).sum
      some ⟨a, 0, rss / (n - 1)⟩
    else
      let a := (sxx * sy - sx * sxy) / delta
      let b := (n * sxy - sx * sy) / delta
      let rss := ((xs.zip ys).map (fun p => (p.2 - a - b * p.1) ^ 2)).sum
      some ⟨a, b, rss / (n - 2)⟩

/-- Modelled from the spec: the inverse-variance combination of the two
sides' intercepts (spec §4.3 step 3).  Written without dividing by a single
side's variance so that a zero-variance (exact) side takes full weight; if
both variances vanish the two exact intercepts are averaged.  Returns the
combined offset and its variance (squared combined standard error). -/
def combineIntercepts (aL vL aR vR : ℚ) : ℚ × ℚ :=
  if vL + vR = 0 then ((aL + aR) / 2, 0)
  else ((aL * vR + aR * vL) / (vL + vR), vL * vR / (vL + vR))

/-- The result of one call to the side-separated fit engine: combined
offset `a`, its variance `var`, and the two per-side fits (for residual
computation by the pruning controller). -/
structure CombFit where
  a : ℚ
  var : ℚ
  left : Option SideFit
  right : Option SideFit
deriving DecidableEq

/-- Modelled from the spec: `DTTimingExtractor::fitT0`
(interface/DTTimingExtractor.h line 82), whose implementation is not in the
snapshot — the side-separated linear fit engine of spec §4.3.  If both
sides have fewer than 2 points the fit is invalid (`none`, the fit-failure
signal).  Otherwise each side is fit independently and the intercepts are
combined by inverse-variance weighting; a side with no points at all is
excluded and the other side's estimate is used alone. -/
def fitT0 (cfg : Config) (xl yl xr yr : List ℚ) : Option CombFit :=
  if xl.length < 2 ∧ xr.length < 2 then none
  else
    let err0 := cfg.theDTError_ ^ 2
    match sideFit err0 xl yl, sideFit err0 xr yr with
    | some l, some r =>
        let c := combineIntercepts l.a l.v r.a r.v
        some ⟨c.1, c.2, some l, some r⟩
    | some l, none => some ⟨l.a, l.v, some l, none⟩
    | none, some r => some ⟨r.a, r.v, none, some r⟩
    | none, none => none

/-- Modelled from the spec: the fit engine applied to a measurement list —
the measurements are split by the `isLeft` drift-side hypothesis (spec §3:
"the fit engine only splits by `isLeft`") and `fitT0` is called with
`x = distIP`, `y = timeCorr` per side. -/
def measFit (cfg : Config) (ms : List TimeMeasurement) : Option CombFit :=
  let left := ms.filter (fun m => m.isLeft)
  let right := ms.filter (fun m => !m.isLeft)
  fitT0 cfg (left.map (fun m => m.distIP)) (left.map (fun m => m.timeCorr))
    (right.map (fun m => m.distIP)) (right.map (fun m => m.timeCorr))

/-- Modelled from the spec: a measurement's signed residual
`timeCorr − (a + b·distIP)` against the side-appropriate fit (spec §4.4);
when the measurement's side carries no fit, the combined offset is used. -/
def fitResidual (c : CombFit) (m : TimeMeasurement) : ℚ :=
  match (if m.isLeft then c.left else c.right) with
  | some s => m.timeCorr - (s.a + s.b * m.distIP)
  | none => m.timeCorr - c.a

/-- The squared residuals of the measurements against a fit (squares
replace absolute values: both sides of the pruning-cut comparison are
non-negative, so comparing squares is comparing absolute values). -/
def resSq (c : CombFit) (ms : List TimeMeasurement) : List ℚ :=
  ms.map (fun m => fitResidual c m ^ 2)

/-- The largest squared residual (`0` for an empty list). -/
def maxResSq (c : CombFit) (ms : List TimeMeasurement) : ℚ :=
  (resSq c ms).foldl max 0

/-- The index of the first measurement attaining the largest absolute
residual — the deterministic tie-break of the pruning controller. -/
def worstIdx (c : CombFit) (ms : List TimeMeasurement) : ℕ :=
  (resSq c ms).findIdx (fun r => r = maxResSq c ms)

/-- Output of the Iterative Pruning Controller: the terminal fit (if any),
the surviving measurements, and the number of measurements pruned. -/
structure PruneOut where
  fit : Option CombFit
  survivors : List TimeMeasurement
  pruned : ℕ
deriving DecidableEq

/-- Modelled from the spec: the Iterative Pruning Controller (spec §4.4),
whose implementation inside `DTTimingExtractor::fillTiming` is not in the
snapshot.  Each round runs the fit engine; if the fit fails (too few
measurements) it stops.  Otherwise it computes all squared residuals; if the
largest does not exceed `(thePruneCut_ · error)²` it stops, else it removes
exactly the first measurement attaining the largest absolute residual and
repeats.  (Squares replace absolute values: both sides of the cut comparison
are non-negative.)  The index-bound test is the defensive round cap the spec
requires; it can never fail, but makes the structural termination of the
recursion explicit. -/
def pruneLoop (cfg : Config) (ms : List TimeMeasurement) : PruneOut :=
  match measFit cfg ms with
  | none => ⟨none, ms, 0⟩
  | some c =>
    if maxResSq c ms ≤ cfg.thePruneCut_ ^ 2 * c.var then ⟨some c, ms, 0⟩
    else
      if hi : worstIdx c ms < ms.length then
        let rest := pruneLoop cfg (ms.eraseIdx (worstIdx c ms))
        ⟨rest.fit, rest.survivors, rest.pruned + 1⟩
      else ⟨some c, ms, 0⟩
termination_by ms.length
decreasing_by
  simp only [List.length_eraseIdx, hi, if_pos]
  omega

/-- Embedding of the `TimeMeasurementSequence` output record filled by
`fillTiming` — the FitResult of spec §3: offset, its variance (squared
error), validity, and used/pruned counts. -/
structure FitResult where
  t0 : ℚ
  t0Err2 : ℚ
  valid : Bool
  used : ℕ
  pruned : ℕ
deriving DecidableEq

/-- Modelled from the spec: `DTTimingExtractor::fillTiming`
(interface/DTTimingExtractor.h line 79), whose implementation is not in the
snapshot — the full pipeline of spec §2: classify the raw hits delivered by
the external segment matcher, apply the Projection Selector, run the
pruning controller, and assemble the result (spec §4.5).  Insufficient data
is reported through `valid = false`, never as a fatal error. -/
def fillTiming (cfg : Config) (hits : List RawHit) : FitResult :=
  let ms := hits.filterMap (classifyHit cfg)
  let sel := projectionSelect cfg ms
  let p := pruneLoop cfg sel
  match p.fit with
  | some c => ⟨c.a, c.var, true, p.survivors.length, p.pruned⟩
  | none => ⟨0, 0, false, p.survivors.length, p.pruned⟩

/-- Embedding of `reco::Track` restricted to the members the two plugins
read: charge, momentum components, and vertex position
(`charge()`, `px()`, `py()`, `pz()`, `vx()`, `vy()`, `vz()`). -/
structure Track where
  charge : ℤ
  px : ℚ
  py : ℚ
  pz : ℚ
  vx : ℚ
  vy : ℚ
  vz : ℚ
deriving DecidableEq

/-- `track->p() * track->p()` — the squared momentum magnitude. -/
def Track.p2 (t : Track) : ℚ :=
  t.px ^ 2 + t.py ^ 2 + t.pz ^ 2

/-- A four-vector whose energy component is stored squared (the source
stores `sqrt` of `e2`; the map `e ↦ e²` is a bijection on the non-negative
energies the plugins construct, so nothing is lost). -/
structure LorentzVec where
  x : ℚ
  y : ℚ
  z : ℚ
  e2 : ℚ
deriving DecidableEq

/-- Embedding of `reco::Muon` restricted to the members the two plugins
touch.  `innerTrack` is what `muon.track()` returns, `outerTrack` what
`muon.standAloneMuon()` returns, `globalTrack` what `muon.combinedMuon()`
returns; a `none` models a null `TrackRef`.  `muonType` is the `type()`
bit mask.  `calEnergy` and `isolation` stand for the muon-id payload
(`MuonEnergy`, `MuonIsolation`) that `CaloMuonMerger` and
`cloneAndSwitchTrack` copy through unchanged. -/
structure Muon where
  charge : ℤ
  p4 : LorentzVec
  vertex : ℚ × ℚ × ℚ
  innerTrack : Option Track
  outerTrack : Option Track
  globalTrack : Option Track
  muonType : ℕ
  caloCompatibility : ℚ
  caloCompatibilityValid : Bool
  calEnergy : ℚ
  isolation : ℚ
deriving DecidableEq

/-- The `reco::Muon::CaloMuon` type bit. -/
def caloMuonTypeBit : ℕ := 16

/-- Embedding of `reco::CaloMuon` restricted to the members
`CaloMuonMerger::produce` reads.  The source dereferences `it->track()`
unconditionally, so the track is not optional here. -/
structure CaloMuon where
  track : Track
  calEnergy : ℚ
  caloCompatibility : ℚ
deriving DecidableEq

/-- Embedding of the body of the first loop of `CaloMuonMerger::produce`
(plugins/CaloMuonMerger.cc lines 60–70): each `reco::Muon` is copied; if it
has a (non-null) track, a valid calo-compatibility at least
`minCaloCompatibility_` turns on the `CaloMuon` type bit, an invalid
calo-compatibility throws `cms::Exception("Boh")` (the exception's
pt/eta/type message text is elided). -/
def flagCaloCompat (minCaloCompatibility : ℚ) (mu : Muon) :
    Except String Muon :=
  if mu.innerTrack.isSome then
    if mu.caloCompatibilityValid then
      if minCaloCompatibility ≤ mu.caloCompatibility then
        Except.ok { mu with muonType := mu.muonType ||| caloMuonTypeBit }
      else Except.ok mu
    else Except.error "Boh: Muon with track and no CaloCompatibility"
  else Except.ok mu

/-- Embedding of the body of the second loop of `CaloMuonMerger::produce`
(plugins/CaloMuonMerger.cc lines 73–85): build a `reco::Muon` from the calo
muon's track — charge, four-momentum with energy
`sqrt(p² + 0.011163691)` (stored squared here), and vertex — then fill the
calo energy, the calo compatibility (which marks it valid), the inner
track, and the `CaloMuon` type. -/
def convertCaloMuon (cm : CaloMuon) : Muon :=
  { charge := cm.track.charge
    p4 := ⟨cm.track.px, cm.track.py, cm.track.pz,
           cm.track.p2 + 11163691 / 1000000000⟩
    vertex := (cm.track.vx, cm.track.vy, cm.track.vz)
    innerTrack := some cm.track
    outerTrack := none
    globalTrack := none
    muonType := caloMuonTypeBit
    caloCompatibility := cm.caloCompatibility
    caloCompatibilityValid := true
    calEnergy := cm.calEnergy
    isolation := 0 }

/-- Embedding of `CaloMuonMerger::produce`
(plugins/CaloMuonMerger.cc lines 46–88): copy the `reco::Muon`s in order
(possibly setting the `CaloMuon` bit, possibly throwing), then append one
converted muon per `reco::CaloMuon`, in order.  A thrown `cms::Exception`
is the `Except.error` case, in which no collection is put into the event. -/
def CaloMuonMerger.produce (minCaloCompatibility : ℚ) (muons : List Muon)
    (caloMuons : List CaloMuon) : Except String (List Muon) := do
  let flagged ← muons.mapM (flagCaloCompat minCaloCompatibility)
  pure (flagged ++ caloMuons.map convertCaloMuon)

/-- The muon mass constant of `MuonsFromRefitTracksProducer` (0.10566). -/
def muMass : ℚ := 10566 / 100000

/-- Embedding of `MuonsFromRefitTracksProducer::cloneAndSwitchTrack`
(plugins/MuonsFromRefitTracksProducer.cc lines 102–125): clone the muon and
replace charge, four-momentum (energy `sqrt(p² + muMass²)`, stored squared
here), vertex and global track with those of `newTrack`, and set the inner
and outer tracks from the original muon's tracker (`muon.track()`) and
stand-alone (`muon.standAloneMuon()`) tracks.  All other members keep the
clone's (= the input muon's) values. -/
def cloneAndSwitchTrack (muon : Muon) (newTrack : Track) : Muon :=
  let tkTrack := muon.innerTrack
  let muTrack := muon.outerTrack
  { muon with
    charge := newTrack.charge
    p4 := ⟨newTrack.px, newTrack.py, newTrack.pz, newTrack.p2 + muMass ^ 2⟩
    vertex := (newTrack.vx, newTrack.vy, newTrack.vz)
    globalTrack := some newTrack
    innerTrack := tkTrack
    outerTrack := muTrack }

/-- The pure value `CaloMuonMerger::produce`'s first loop leaves in the
output slot of one input `reco::Muon` when no exception is thrown: the
`CaloMuon` type bit is set exactly when the muon has a track, a valid
calo-compatibility, and compatibility at least the threshold
(plugins/CaloMuonMerger.cc lines 63–67). -/
def flagPure (minCaloCompatibility : ℚ) (mu : Muon) : Muon :=
  if mu.innerTrack.isSome ∧ mu.caloCompatibilityValid
      ∧ minCaloCompatibility ≤ mu.caloCompatibility then
    { mu with muonType := mu.muonType ||| caloMuonTypeBit }
  else mu

/-- A concrete configuration used by the closed witness statements. -/
def cfgEx : Config :=
  { theHitsMin_ := 1
    thePruneCut_ := 2
    useSegmentT0_ := true
    doWireCorr_ := true
    dropTheta_ := false
    requireBothProjections_ := false
    theDTTimeOffset_ := 0
    theDTError_ := 1 }

/-- A concrete raw hit used by the closed witness statements. -/
def hitEx : RawHit :=
  { detId := 5
    station := 1
    isPhi := true
    isLeft := true
    posInLayer := 2
    pathLen := -3
    rawTime := 10
    segmentT0 := 1
    wirePropDelay := 2
    geomOk := true }

/-- A concrete outlier-free measurement list (two exact points per drift
side on the line `y = x`) used by the closed witness statements. -/
def cleanMs : List TimeMeasurement :=
  [ ⟨true, true, 0, 1, 1, 1, 0⟩, ⟨true, true, 0, 2, 2, 1, 1⟩,
    ⟨false, true, 0, 1, 1, 1, 2⟩, ⟨false, true, 0, 2, 2, 1, 3⟩ ]

/-- The fit-engine output on `cleanMs`: both sides fit `y = 0 + 1·x`
exactly, so both variances and the combined variance are `0`. -/
def cleanFit : CombFit :=
  ⟨0, 0, some ⟨0, 1, 0⟩, some ⟨0, 1, 0⟩⟩

/-- The measurement that `classifyHit cfgEx hitEx` produces. -/
def mEx : TimeMeasurement :=
  ⟨true, true, 2, 3, 7, 1, 5⟩

/-- A concrete track used by the closed witness statements. -/
def trkEx : Track :=
  ⟨1, 1, 0, 0, 0, 0, 0⟩

/-- A concrete muon with a track and a valid calo-compatibility. -/
def muGood : Muon :=
  { charge := 1
    p4 := ⟨0, 0, 0, 0⟩
    vertex := (0, 0, 0)
    innerTrack := some trkEx
    outerTrack := none
    globalTrack := none
    muonType := 2
    caloCompatibility := 1
    caloCompatibilityValid := true
    calEnergy := 0
    isolation := 0 }

/-- A concrete muon with a track but an invalid calo-compatibility. -/
def muBad : Muon :=
  { muGood with caloCompatibilityValid := false }

/-- A concrete calo muon used by the closed witness statements. -/
def cmEx : CaloMuon :=
  ⟨trkEx, 3, 1⟩

/-- Claim C1: whenever both the left subset and the right subset passed to
the side-separated fit `fitT0` have fewer than 2 points, the fit is
declared invalid — `fitT0` signals the fit-failure condition (`none`)
instead of returning an offset. -/
theorem C1_fitT0_invalid_when_both_sides_below_two (cfg : Config)
    (xl yl xr yr : List ℚ) (hl : xl.length < 2) (hr : xr.length < 2) :
    fitT0 cfg xl yl xr yr = none := by
  unfold fitT0
  rw [if_pos ⟨hl, hr⟩]

theorem C1_witness : fitT0 cfgEx [] [] [(3 : ℚ)] [(4 : ℚ)] = none :=
  C1_fitT0_invalid_when_both_sides_below_two cfgEx [] [] [3] [4]
    (by decide) (by decide)

/-- Claim C6: a track whose segment lookup yields an empty measurement list
gets a deterministic result with `valid = false` and `used = 0` from the
top-level timing fit; `fillTiming` is a total function into `FitResult`, so
this insufficient-data condition never surfaces as a fatal error. -/
theorem C6_empty_input_invalid_zero_used (cfg : Config) :
    fillTiming cfg [] = ⟨0, 0, false, 0, 0⟩ := by
  have h1 : projectionSelect cfg ([] : List TimeMeasurement) = [] := by
    unfold projectionSelect dropThetaFilter
    cases cfg.dropTheta_ <;> simp
  have hm : measFit cfg [] = none := by
    unfold measFit fitT0
    simp
  simp only [fillTiming, List.filterMap_nil, h1]
  rw [pruneLoop, hm]
  rfl

/-- Claim C7: the segment-level time-origin subtraction (`useSegmentT0`)
and the wire propagation-delay correction (`doWireCorr`) of the Hit
Classifier commute — either application order gives the same corrected
time, and applying both equals subtracting their sum in one step; and the
classifier with both flags enabled produces exactly that doubly-corrected
time. -/
theorem C7_time_corrections_commute (h : RawHit) (t : ℚ) (cfg : Config)
    (m : TimeMeasurement) :
    applySegmentT0 h (applyWireCorr h t)
      = applyWireCorr h (applySegmentT0 h t)
    ∧ applySegmentT0 h (applyWireCorr h t)
      = t - (h.segmentT0 + h.wirePropDelay)
    ∧ (cfg.useSegmentT0_ = true → cfg.doWireCorr_ = true →
        classifyHit cfg h = some m →
        m.timeCorr = applySegmentT0 h (applyWireCorr h
          (h.rawTime - cfg.theDTTimeOffset_))) := by
  refine ⟨by unfold applySegmentT0 applyWireCorr; ring,
          by unfold applySegmentT0 applyWireCorr; ring, ?_⟩
  intro hu hd hc
  unfold classifyHit at hc
  by_cases hg : h.geomOk
  · rw [if_pos hg] at hc
    cases hc
    unfold applySegmentT0 applyWireCorr
    simp only [hu, hd, if_pos]
    ring
  · rw [if_neg hg] at hc
    exact absurd hc (by simp)

theorem C7_witness :
    applySegmentT0 hitEx (applyWireCorr hitEx 5)
      = applyWireCorr hitEx (applySegmentT0 hitEx 5)
    ∧ mEx.timeCorr = applySegmentT0 hitEx (applyWireCorr hitEx
        (hitEx.rawTime - cfgEx.theDTTimeOffset_)) :=
  ⟨(C7_time_corrections_commute hitEx 5 cfgEx mEx).1,
   (C7_time_corrections_commute hitEx 5 cfgEx mEx).2.2 rfl rfl
     (by norm_num [classifyHit, cfgEx, hitEx, mEx])⟩

/-- Claim C10: `cloneAndSwitchTrack` returns a clone whose charge,
four-momentum, vertex and global track come from the new track, whose inner
and outer tracks are the original muon's tracker and stand-alone tracks,
and whose every other member (muon-id payload: type, calo compatibility,
calo energy, isolation) equals the input muon's.  The embedding is a pure
function of the input muon, so the input itself is unchanged. -/
theorem C10_clone_and_switch_track_fields (muon : Muon) (newTrack : Track) :
    (cloneAndSwitchTrack muon newTrack).charge = newTrack.charge
    ∧ (cloneAndSwitchTrack muon newTrack).p4
      = ⟨newTrack.px, newTrack.py, newTrack.pz, newTrack.p2 + muMass ^ 2⟩
    ∧ (cloneAndSwitchTrack muon newTrack).vertex
      = (newTrack.vx, newTrack.vy, newTrack.vz)
    ∧ (cloneAndSwitchTrack muon newTrack).globalTrack = some newTrack
    ∧ (cloneAndSwitchTrack muon newTrack).innerTrack = muon.innerTrack
    ∧ (cloneAndSwitchTrack muon newTrack).outerTrack = muon.outerTrack
    ∧ (cloneAndSwitchTrack muon newTrack).muonType = muon.muonType
    ∧ (cloneAndSwitchTrack muon newTrack).caloCompatibility
      = muon.caloCompatibility
    ∧ (cloneAndSwitchTrack muon newTrack).caloCompatibilityValid
      = muon.caloCompatibilityValid
    ∧ (cloneAndSwitchTrack muon newTrack).calEnergy = muon.calEnergy
    ∧ (cloneAndSwitchTrack muon newTrack).isolation = muon.isolation :=
  ⟨rfl, rfl, rfl, rfl, rfl, rfl, rfl, rfl, rfl, rfl, rfl⟩

theorem pruneLoop_none (cfg : Config) (ms : List TimeMeasurement)
    (h : measFit cfg ms = none) : pruneLoop cfg ms = ⟨none, ms, 0⟩ := by
  rw [pruneLoop, h]

theorem pruneLoop_stop (cfg : Config) (ms : List TimeMeasurement)
    (c : CombFit) (h : measFit cfg ms = some c)
    (hle : maxResSq c ms ≤ cfg.thePruneCut_ ^ 2 * c.var) :
    pruneLoop cfg ms = ⟨some c, ms, 0⟩ := by
  rw [pruneLoop, h]
  simp only [if_pos hle]

theorem pruneLoop_step (cfg : Config) (ms : List TimeMeasurement)
    (c : CombFit) (h : measFit cfg ms = some c)
    (hgt : ¬ maxResSq c ms ≤ cfg.thePruneCut_ ^ 2 * c.var)
    (hi : worstIdx c ms < ms.length) :
    pruneLoop cfg ms =
      ⟨(pruneLoop cfg (ms.eraseIdx (worstIdx c ms))).fit,
       (pruneLoop cfg (ms.eraseIdx (worstIdx c ms))).survivors,
       (pruneLoop cfg (ms.eraseIdx (worstIdx c ms))).pruned + 1⟩ := by
  rw [pruneLoop, h]
  simp only [if_neg hgt, dif_pos hi]

theorem pruneLoop_guard (cfg : Config) (ms : List TimeMeasurement)
    (c : CombFit) (h : measFit cfg ms = some c)
    (hgt : ¬ maxResSq c ms ≤ cfg.thePruneCut_ ^ 2 * c.var)
    (hi : ¬ worstIdx c ms < ms.length) :
    pruneLoop cfg ms = ⟨some c, ms, 0⟩ := by
  rw [pruneLoop, h]
  simp only [if_neg hgt, dif_neg hi]

theorem pruneLoop_survivors_sublist (cfg : Config)
    (ms : List TimeMeasurement) :
    ((pruneLoop cfg ms).survivors).Sublist ms := by
  induction ms using pruneLoop.induct cfg with
  | case1 x h => rw [pruneLoop_none cfg x h]
  | case2 x c h hle => rw [pruneLoop_stop cfg x c h hle]
  | case3 x c h hgt hi ih =>
    rw [pruneLoop_step cfg x c h hgt hi]
    exact ih.trans (List.eraseIdx_sublist x (worstIdx c x))
  | case4 x c h hgt hi => rw [pruneLoop_guard cfg x c h hgt hi]

theorem pruneLoop_count (cfg : Config) (ms : List TimeMeasurement) :
    (pruneLoop cfg ms).survivors.length + (pruneLoop cfg ms).pruned
      = ms.length := by
  induction ms using pruneLoop.induct cfg with
  | case1 x h => rw [pruneLoop_none cfg x h]; rfl
  | case2 x c h hle => rw [pruneLoop_stop cfg x c h hle]; rfl
  | case3 x c h hgt hi ih =>
    rw [pruneLoop_step cfg x c h hgt hi]
    simp only []
    rw [← Nat.add_assoc, ih]
    rw [List.length_eraseIdx, if_pos hi]
    omega
  | case4 x c h hgt hi => rw [pruneLoop_guard cfg x c h hgt hi]; rfl

/-- Claim C3: the iterative pruning controller terminates on every input —
`pruneLoop` is a total function, defined by recursion on the measurement
count with the defensive index guard the spec's round cap calls for.  Each
removal round removes exactly one measurement: the surviving count plus the
pruned count equals the initial count, and the number of
measurement-removing rounds (`pruned`) is bounded by the initial
measurement count. -/
theorem C3_pruning_terminates_rounds_bounded (cfg : Config)
    (ms : List TimeMeasurement) :
    (pruneLoop cfg ms).survivors.length + (pruneLoop cfg ms).pruned
        = ms.length
    ∧ (pruneLoop cfg ms).pruned ≤ ms.length := by
  have h := pruneLoop_count cfg ms
  exact ⟨h, by omega⟩

/-- Claim C5: every measurement the Hit Classifier produces has
non-negative `distIP`, and no operation mutates a measurement after its
creation — the pipeline's stages are pure and only select from their input:
every measurement in the Projection Selector's or the pruning controller's
output is (structurally equal to) a member of the input list. -/
theorem C5_distIP_nonneg_and_measurements_immutable (cfg : Config)
    (h : RawHit) (m : TimeMeasurement) :
    (classifyHit cfg h = some m → 0 ≤ m.distIP)
    ∧ (∀ (ms : List TimeMeasurement) (m' : TimeMeasurement),
        m' ∈ projectionSelect cfg ms → m' ∈ ms)
    ∧ (∀ (ms : List TimeMeasurement) (m' : TimeMeasurement),
        m' ∈ (pruneLoop cfg ms).survivors → m' ∈ ms) := by
  refine ⟨?_, ?_, ?_⟩
  · intro hc
    unfold classifyHit at hc
    by_cases hg : h.geomOk
    · rw [if_pos hg] at hc
      cases hc
      exact abs_nonneg _
    · rw [if_neg hg] at hc
      exact absurd hc (by simp)
  · intro ms m' hm
    simp only [projectionSelect] at hm
    have h1 := (List.mem_filter.mp hm).1
    unfold dropThetaFilter at h1
    by_cases hd : cfg.dropTheta_
    · rw [if_pos hd] at h1
      exact (List.mem_filter.mp h1).1
    · rwa [if_neg hd] at h1
  · intro ms m' hm
    exact (pruneLoop_survivors_sublist cfg ms).subset hm

/-- Claim C4: the Projection Selector applies its policies in order: a
measurement survives iff (1) it survives the unconditional `dropTheta_`
discard of `isPhi = false` measurements, (2) if `requireBothProjections_`
is set, its station retains — among the measurements that survived step 1 —
at least one phi and at least one theta measurement, and (3) its station
retains at least `theHitsMin_` measurements summed across projections
(again counted after step 1). -/
theorem C4_projection_selector_policy_order (cfg : Config)
    (ms : List TimeMeasurement) (m : TimeMeasurement) :
    m ∈ projectionSelect cfg ms ↔
      (m ∈ ms ∧ (cfg.dropTheta_ = true → m.isPhi = true))
      ∧ (cfg.requireBothProjections_ = true →
          (∃ m1 ∈ stationHits (dropThetaFilter cfg ms) m.station,
            m1.isPhi = true)
          ∧ (∃ m1 ∈ stationHits (dropThetaFilter cfg ms) m.station,
            m1.isPhi = false))
      ∧ cfg.theHitsMin_
          ≤ (stationHits (dropThetaFilter cfg ms) m.station).length := by
  have hms1 : ∀ x : TimeMeasurement,
      x ∈ dropThetaFilter cfg ms
        ↔ x ∈ ms ∧ (cfg.dropTheta_ = true → x.isPhi = true) := by
    intro x
    cases hd : cfg.dropTheta_ <;>
      simp [dropThetaFilter, hd, List.mem_filter]
  simp only [projectionSelect, List.mem_filter, stationOK, Bool.and_eq_true,
    Bool.or_eq_true, Bool.not_eq_true', List.any_eq_true, Bool.not_eq_true,
    decide_eq_true_eq, hms1]
  cases hrb : cfg.requireBothProjections_ <;> simp [hrb]

theorem C5_witness : 0 ≤ mEx.distIP ∧ mEx ∈ [mEx] ∧ mEx ∈ [mEx] :=
  ⟨(C5_distIP_nonneg_and_measurements_immutable cfgEx hitEx mEx).1
     (by norm_num [classifyHit, cfgEx, hitEx, mEx]),
   (C5_distIP_nonneg_and_measurements_immutable cfgEx hitEx mEx).2.1
     [mEx] mEx (by decide),
   (C5_distIP_nonneg_and_measurements_immutable cfgEx hitEx mEx).2.2
     [mEx] mEx (by
       rw [pruneLoop_none cfgEx [mEx] (by decide)]
       exact List.mem_singleton.mpr rfl)⟩

theorem sideFit_two_le (err0 : ℚ) (xs ys : List ℚ) (h2 : 2 ≤ xs.length) :
    ∃ s, sideFit err0 xs ys = some s ∧ 0 ≤ s.v := by
  have hn : (2 : ℚ) ≤ (xs.length : ℚ) := by exact_mod_cast h2
  unfold sideFit
  rw [if_neg (by omega), if_neg (by omega)]
  simp only []
  split
  · refine ⟨_, rfl, ?_⟩
    refine div_nonneg (List.sum_nonneg ?_) (by linarith)
    intro a ha
    obtain ⟨y, _, rfl⟩ := List.mem_map.mp ha
    positivity
  · refine ⟨_, rfl, ?_⟩
    refine div_nonneg (List.sum_nonneg ?_) (by linarith)
    intro a ha
    obtain ⟨p, _, rfl⟩ := List.mem_map.mp ha
    positivity

theorem combineIntercepts_bounds (aL vL aR vR : ℚ)
    (hL : 0 ≤ vL) (hR : 0 ≤ vR) :
    0 ≤ (combineIntercepts aL vL aR vR).2
    ∧ (combineIntercepts aL vL aR vR).2 ≤ vL
    ∧ (combineIntercepts aL vL aR vR).2 ≤ vR := by
  unfold combineIntercepts
  by_cases h : vL + vR = 0
  · rw [if_pos h]
    exact ⟨le_refl 0, hL, hR⟩
  · rw [if_neg h]
    have hpos : 0 < vL + vR := lt_of_le_of_ne (by linarith) (Ne.symm h)
    refine ⟨div_nonneg (mul_nonneg hL hR) hpos.le, ?_, ?_⟩
    · rw [div_le_iff₀ hpos]
      nlinarith
    · rw [div_le_iff₀ hpos]
      nlinarith

/-- Claim C2 (amended): when both the left and the right subsets carry a
full fit (at least 2 points each), `fitT0` returns a valid combined fit
whose variance (squared error) is non-negative — hence the error is finite
and non-negative — and *never larger* than the variance either side's fit
alone would imply.  (The claim's direction "never smaller" is refuted by
`C2_counterexample`: inverse-variance weighting makes the combined error
at most each single side's error.) -/
theorem C2_combined_error_bounds (cfg : Config) (xl yl xr yr : List ℚ)
    (hl : 2 ≤ xl.length) (hr : 2 ≤ xr.length) :
    ∃ c sL sR,
      fitT0 cfg xl yl xr yr = some c
      ∧ sideFit (cfg.theDTError_ ^ 2) xl yl = some sL
      ∧ sideFit (cfg.theDTError_ ^ 2) xr yr = some sR
      ∧ 0 ≤ c.var ∧ c.var ≤ sL.v ∧ c.var ≤ sR.v := by
  obtain ⟨sL, hsL, hvL⟩ := sideFit_two_le (cfg.theDTError_ ^ 2) xl yl hl
  obtain ⟨sR, hsR, hvR⟩ := sideFit_two_le (cfg.theDTError_ ^ 2) xr yr hr
  obtain ⟨h0, hbL, hbR⟩ := combineIntercepts_bounds sL.a sL.v sR.a sR.v hvL hvR
  refine ⟨⟨(combineIntercepts sL.a sL.v sR.a sR.v).1,
           (combineIntercepts sL.a sL.v sR.a sR.v).2, some sL, some sR⟩,
          sL, sR, ?_, hsL, hsR, h0, hbL, hbR⟩
  unfold fitT0
  rw [if_neg (by omega)]
  simp only [hsL, hsR]

theorem C2_witness :
    ∃ c sL sR,
      fitT0 cfgEx [0, 1, 2] [0, 1, 0] [0, 1, 2] [0, 1, 0] = some c
      ∧ sideFit (cfgEx.theDTError_ ^ 2) [0, 1, 2] [0, 1, 0] = some sL
      ∧ sideFit (cfgEx.theDTError_ ^ 2) [0, 1, 2] [0, 1, 0] = some sR
      ∧ 0 ≤ c.var ∧ c.var ≤ sL.v ∧ c.var ≤ sR.v :=
  C2_combined_error_bounds cfgEx [0, 1, 2] [0, 1, 0] [0, 1, 2] [0, 1, 0]
    (by decide) (by decide)

/-- Counterexample to claim C2 as stated: on three points per side with
positive residual scatter, the combined variance (`1/3`) is strictly
*smaller* than the variance of the left side's fit alone (`2/3`), so the
reported combined error is smaller than the standard error implied by one
side alone — the "never smaller than either side" direction is false. -/
theorem C2_counterexample :
    ∃ c sL, fitT0 cfgEx [0, 1, 2] [0, 1, 0] [0, 1, 2] [0, 1, 0] = some c
      ∧ sideFit (cfgEx.theDTError_ ^ 2) [0, 1, 2] [0, 1, 0] = some sL
      ∧ c.var < sL.v := by
  refine ⟨⟨1/3, 1/3, some ⟨1/3, 0, 2/3⟩, some ⟨1/3, 0, 2/3⟩⟩,
          ⟨1/3, 0, 2/3⟩, ?_, ?_, by norm_num⟩
  · norm_num [fitT0, sideFit, combineIntercepts, cfgEx]
  · norm_num [sideFit, cfgEx]

theorem measFit_nil (cfg : Config) : measFit cfg [] = none := by
  unfold measFit fitT0
  simp

theorem foldl_max_le (rs : List ℚ) (B init : ℚ) (hinit : init ≤ B)
    (h : ∀ r ∈ rs, r ≤ B) : rs.foldl max init ≤ B := by
  induction rs generalizing init with
  | nil => exact hinit
  | cons a l ih =>
    simp only [List.foldl_cons]
    exact ih (max init a) (max_le hinit (h a (List.mem_cons_self a l)))
      (fun r hr => h r (List.mem_cons_of_mem a hr))

/-- Claim C8: on a measurement set with no outliers — no measurement's
squared residual exceeds the squared pruning cut times the fit's variance —
the iterative pruning controller stops after its first fit and returns
exactly the single fit-engine call's result: the same offset and error
(`fit = some c`), all measurements kept, and zero pruned. -/
theorem C8_pruning_identity_on_clean_data (cfg : Config)
    (ms : List TimeMeasurement) (c : CombFit)
    (hfit : measFit cfg ms = some c)
    (hclean : ∀ m ∈ ms,
      (fitResidual c m) ^ 2 ≤ cfg.thePruneCut_ ^ 2 * c.var) :
    pruneLoop cfg ms = ⟨some c, ms, 0⟩ := by
  apply pruneLoop_stop cfg ms c hfit
  have hne : ms ≠ [] := by
    intro he
    subst he
    rw [measFit_nil] at hfit
    exact Option.noConfusion hfit
  obtain ⟨m0, hm0⟩ := List.exists_mem_of_ne_nil ms hne
  have h0 : (0 : ℚ) ≤ cfg.thePruneCut_ ^ 2 * c.var :=
    le_trans (sq_nonneg _) (hclean m0 hm0)
  unfold maxResSq resSq
  apply foldl_max_le
  · exact h0
  · intro r hr
    obtain ⟨m, hm, rfl⟩ := List.mem_map.mp hr
    exact hclean m hm

theorem C8_witness : pruneLoop cfgEx cleanMs = ⟨some cleanFit, cleanMs, 0⟩ :=
  C8_pruning_identity_on_clean_data cfgEx cleanMs cleanFit
    (by norm_num [measFit, fitT0, sideFit, combineIntercepts, cleanMs,
          cleanFit, cfgEx])
    (by
      intro m hm
      simp only [cleanMs, List.mem_cons, List.not_mem_nil, or_false] at hm
      rcases hm with rfl | rfl | rfl | rfl <;>
        norm_num [fitResidual, cleanFit, cfgEx])

theorem flagCaloCompat_ok (minC : ℚ) (mu : Muon)
    (h : mu.innerTrack.isSome → mu.caloCompatibilityValid = true) :
    flagCaloCompat minC mu = Except.ok (flagPure minC mu) := by
  unfold flagCaloCompat flagPure
  by_cases ht : mu.innerTrack.isSome = true
  · by_cases hc : minC ≤ mu.caloCompatibility
    · simp [ht, h ht, hc]
    · simp [ht, h ht, hc]
  · simp [ht]

theorem mapM_flag_ok (minC : ℚ) (muons : List Muon)
    (h : ∀ mu ∈ muons,
      mu.innerTrack.isSome → mu.caloCompatibilityValid = true) :
    muons.mapM (flagCaloCompat minC)
      = Except.ok (muons.map (flagPure minC)) := by
  induction muons with
  | nil => rfl
  | cons a l ih =>
    rw [List.mapM_cons,
      flagCaloCompat_ok minC a (h a (List.mem_cons_self a l)),
      ih (fun mu hm => h mu (List.mem_cons_of_mem a hm))]
    rfl

theorem mapM_ok_mem (f : Muon → Except String Muon) (l : List Muon)
    (out : List Muon) (h : l.mapM f = Except.ok out) :
    ∀ a ∈ l, ∃ b, f a = Except.ok b := by
  induction l generalizing out with
  | nil =>
    intro a ha
    exact absurd ha (List.not_mem_nil a)
  | cons x xs ih =>
    rw [List.mapM_cons] at h
    intro a ha
    cases hf : f x with
    | error e =>
      rw [hf] at h
      exact absurd h (by simp [Bind.bind, Except.bind])
    | ok b =>
      rw [hf] at h
      cases hm : xs.mapM f with
      | error e =>
        rw [hm] at h
        exact absurd h (by simp [Bind.bind, Except.bind])
      | ok bs =>
        rw [hm] at h
        rcases List.mem_cons.mp ha with rfl | ha'
        · exact ⟨b, hf⟩
        · exact ih bs hm a ha'

/-- Claim C9: if every input `reco::Muon` with a non-null track has a valid
calo-compatibility, `CaloMuonMerger::produce` emits exactly
`size(muons) + size(caloMuons)` output muons in input order — all
`reco::Muon`s first (each possibly with the `CaloMuon` bit set), then one
converted muon per `reco::CaloMuon`; if some input muon has a non-null
track and an invalid calo-compatibility, `produce` raises an exception and
emits no collection. -/
theorem C9_produce_counts_order_exception (minC : ℚ) (muons : List Muon)
    (caloMuons : List CaloMuon) :
    ((∀ mu ∈ muons,
        mu.innerTrack.isSome → mu.caloCompatibilityValid = true) →
      CaloMuonMerger.produce minC muons caloMuons
        = Except.ok (muons.map (flagPure minC)
            ++ caloMuons.map convertCaloMuon)
      ∧ (muons.map (flagPure minC) ++ caloMuons.map convertCaloMuon).length
          = muons.length + caloMuons.length)
    ∧ ((∃ mu ∈ muons,
          mu.innerTrack.isSome ∧ mu.caloCompatibilityValid = false) →
        ∃ e, CaloMuonMerger.produce minC muons caloMuons
          = Except.error e) := by
  constructor
  · intro h
    unfold CaloMuonMerger.produce
    rw [mapM_flag_ok minC muons h]
    exact ⟨rfl, by simp⟩
  · rintro ⟨mu, hmem, hsome, hvalid⟩
    unfold CaloMuonMerger.produce
    cases hm : muons.mapM (flagCaloCompat minC) with
    | error e =>
      exact ⟨e, rfl⟩
    | ok out =>
      obtain ⟨b, hb⟩ := mapM_ok_mem (flagCaloCompat minC) muons out hm mu hmem
      unfold flagCaloCompat at hb
      simp [hsome, hvalid] at hb

theorem C9_witness :
    (CaloMuonMerger.produce (1/2) [muGood] [cmEx]
        = Except.ok ([muGood].map (flagPure (1/2))
            ++ [cmEx].map convertCaloMuon)
      ∧ ([muGood].map (flagPure (1/2)) ++ [cmEx].map convertCaloMuon).length
          = [muGood].length + [cmEx].length)
    ∧ ∃ e, CaloMuonMerger.produce (1/2) [muBad] [] = Except.error e :=
  ⟨(C9_produce_counts_order_exception (1/2) [muGood] [cmEx]).1
     (by
       intro mu hm
       rw [List.mem_singleton] at hm
       subst hm
       intro _
       rfl),
   (C9_produce_counts_order_exception (1/2) [muBad] []).2
     ⟨muBad, List.mem_singleton.mpr rfl, rfl, rfl⟩⟩
